import Mathlib

/-!
Verification of the ClassMate course-matching service.

This development shallowly embeds the data model and the route-handler /
SQL-function logic of the ClassMate repository:

* `apps/api/src/routes/room.ts` — room resolution, membership join,
  member-list visibility resolution (`getDayOfWeek`, `formatTime`,
  `canSeeContact`);
* `apps/api/src/routes/schedule.ts` — the confirm flow (find-or-create
  course/room, membership insert, new-member fan-out);
* `apps/api/src/routes/contact.ts` — contact request / respond handlers;
* the SQL functions `are_connected`, `can_request_contact` and the
  `handle_room_member_count` trigger from the migrations;
* `apps/api/src/lib/quota.ts` — `consumeQuota`.

Database tables are lists of row structures; timestamps are integers
(seconds for the SQL-side cooldown functions, milliseconds where the
TypeScript uses `Date.now()`, as noted on each definition).  UUID columns
are modelled as `Nat` (only equality and the `<` canonical ordering of
`user_connections` are ever used on them).
-/

namespace ClassMate

/-- Status column of `contact_requests` (`CHECK (status IN ...)`). -/
inductive RequestStatus where
  | pending
  | accepted
  | rejected
deriving DecidableEq, Repr

/-- Row of `public.users` (the columns the embedded handlers read). -/
structure UserRow where
  id : Nat
  nickname : String
  wechat : Option String
  qq : Option String
  autoShareContact : Option Bool
  matchQuotaRemaining : Option Int
  matchQuotaResetAt : Option Int
deriving DecidableEq, Repr

/-- Row of `public.courses` (unique by `(name, school)`). -/
structure CourseRow where
  id : Nat
  name : String
  school : String
  code : Option String
deriving DecidableEq, Repr

/-- Row of `public.course_rooms`. -/
structure RoomRow where
  id : Nat
  courseId : Nat
  semesterId : String
  dayOfWeek : Nat
  startTime : String
  endTime : String
  professor : String
  classroom : String
  weeks : String
  memberCount : Int
deriving DecidableEq, Repr

/-- Row of `public.room_members` (unique by `(room_id, user_id)`). -/
structure MemberRow where
  roomId : Nat
  userId : Nat
deriving DecidableEq, Repr

/-- Row of `public.user_connections` (`CHECK user_id_1 < user_id_2`). -/
structure ConnectionRow where
  userId1 : Nat
  userId2 : Nat
  roomId : Option Nat
deriving DecidableEq, Repr

/-- Row of `public.contact_requests` (unique by `(requester_id, target_user_id)`). -/
structure RequestRow where
  id : Nat
  requesterId : Nat
  targetUserId : Nat
  roomId : Option Nat
  status : RequestStatus
  message : Option String
  createdAt : Int
  respondedAt : Option Int
deriving DecidableEq, Repr

/-- Row of `public.room_privacy_settings` (unique by `(user_id, room_id)`). -/
structure PrivacyRow where
  userId : Nat
  roomId : Nat
  isPublic : Option Bool
deriving DecidableEq, Repr

/-- Row of `public.notifications` (the fields the handlers write). -/
structure NotificationRow where
  userId : Nat
  ntype : String
  roomId : Option Nat
  requestId : Option Nat
deriving DecidableEq, Repr

/-- Shared relational store: one list per table, plus a fresh-id counter
standing in for `uuid_generate_v4()`. -/
structure DB where
  users : List UserRow
  courses : List CourseRow
  rooms : List RoomRow
  members : List MemberRow
  connections : List ConnectionRow
  requests : List RequestRow
  privacy : List PrivacyRow
  notifications : List NotificationRow
  nextId : Nat
deriving DecidableEq, Repr

/-! ## Pure helpers from `routes/room.ts` -/

/-- Embeds `getDayOfWeek` (room.ts lines 19–29): `null`/empty meeting day
maps to 1; otherwise case-insensitive substring tests in the fixed order
M, T, W, H, F, S, with any other non-empty string mapping to 7. -/
def getDayOfWeek (meetingDay : Option String) : Nat :=
  match meetingDay with
  | none => 1
  | some s =>
    if s.data.isEmpty then 1
    else
      let normalized := s.data.map Char.toUpper
      if normalized.contains 'M' then 1
      else if normalized.contains 'T' then 2
      else if normalized.contains 'W' then 3
      else if normalized.contains 'H' then 4
      else if normalized.contains 'F' then 5
      else if normalized.contains 'S' then 6
      else 7

/-- Embeds `formatTime` (room.ts lines 31–34): `null` or a value shorter
than 4 characters yields `null`; otherwise the result is
`value.slice(0,2) ++ ":" ++ value.slice(2,4)`. -/
def formatTime (value : Option String) : Option String :=
  match value with
  | none => none
  | some v =>
    if v.length < 4 then none
    else some (v.take 2 ++ ":" ++ (v.drop 2).take 2)

/-- Written from the spec sentence for C10: the day is the value paired
with the first letter of the fixed precedence M, T, W, H, F, S that
occurs in the upper-cased meeting-day string. -/
def specDayPrecedence : List (Char × Nat) :=
  [('M', 1), ('T', 2), ('W', 3), ('H', 4), ('F', 5), ('S', 6)]

/-- Written from the spec sentence for C10: null/empty meeting day maps
to 1, otherwise the first matching letter of `specDayPrecedence` decides,
and any other non-empty string maps to 7.  Comparison target for
`getDayOfWeek`. -/
def specGetDayOfWeek (meetingDay : Option String) : Nat :=
  match meetingDay with
  | none => 1
  | some s =>
    if s.data.isEmpty then 1
    else
      match specDayPrecedence.find? (fun p => (s.data.map Char.toUpper).contains p.1) with
      | some p => p.2
      | none => 7

/-! ## Contact graph SQL functions (migration part_012, lines 279–339) -/

/-- Embeds the SQL function `are_connected`: order the pair canonically
(`a_id < b_id`) and test for a matching `user_connections` row. -/
def are_connected (a b : Nat) (conns : List ConnectionRow) : Bool :=
  let p := if a < b then (a, b) else (b, a)
  conns.any (fun c => decide (c.userId1 = p.1 ∧ c.userId2 = p.2))

/-- Accumulator step for the `ORDER BY created_at DESC LIMIT 1` lookup:
keep the request with the greater `created_at`. -/
def laterRequest (acc : Option RequestRow) (r : RequestRow) : Option RequestRow :=
  match acc with
  | none => some r
  | some q => if q.createdAt < r.createdAt then some r else some q

/-- Embeds the `SELECT ... WHERE requester_id = a AND target_user_id = b
ORDER BY created_at DESC LIMIT 1` lookup inside `can_request_contact`.
The table's `UNIQUE(requester_id, target_user_id)` constraint makes at
most one row match. -/
def lastRequest (a b : Nat) (reqs : List RequestRow) : Option RequestRow :=
  (reqs.filter (fun r => decide (r.requesterId = a ∧ r.targetUserId = b))).foldl
    laterRequest none

/-- Embeds `last_request.responded_at < NOW() - INTERVAL '1 hour'`
(seconds).  A NULL `responded_at` makes the SQL comparison return NULL,
which every caller of the RPC treats as falsy; that case is embedded as
`false`. -/
def cooldownExpired (now : Int) (respondedAt : Option Int) : Bool :=
  match respondedAt with
  | some t => decide (t < now - 3600)
  | none => false

/-- Embeds the SQL function `can_request_contact`.  Times are in seconds
(`INTERVAL '1 hour'` = 3600). -/
def can_request_contact (now : Int) (a b : Nat) (conns : List ConnectionRow)
    (reqs : List RequestRow) : Bool :=
  if are_connected a b conns then false
  else
    match lastRequest a b reqs with
    | none => true
    | some r =>
      if r.status = RequestStatus.pending then false
      else if r.status = RequestStatus.rejected then cooldownExpired now r.respondedAt
      else false

/-! ## Visibility resolver (room.ts `GET /:roomId`, lines 300–400) -/

/-- Lookup in a JS `Map` built by successive `set` calls over `entries`
(last write wins): entries later in the list take priority. -/
def jsMapGet {α : Type} (entries : List (Nat × α)) (k : Nat) : Option α :=
  match entries with
  | [] => none
  | e :: rest =>
    match jsMapGet rest k with
    | some v => some v
    | none => if e.1 = k then some e.2 else none

/-- Embeds the `connectionSet` construction (room.ts lines 309–322): the
connections query filters rows touching `currentUserId` and each row
contributes the opposite endpoint. -/
def connectionOthers (currentUserId : Nat) (conns : List ConnectionRow) : List Nat :=
  (conns.filter (fun c => decide (c.userId1 = currentUserId ∨ c.userId2 = currentUserId))).map
    (fun c => if c.userId1 = currentUserId then c.userId2 else c.userId1)

/-- Embeds the `requestStatusMap` construction (room.ts lines 333–352),
iterating the viewer's outgoing requests: a rejected request whose
`responded_at` is more than one hour (3 600 000 ms) old is skipped, every
other request sets `target_user_id → status`.  `nowMs` is `Date.now()`. -/
def requestStatusEntries (nowMs : Int) (myRequests : List RequestRow) :
    List (Nat × RequestStatus) :=
  myRequests.foldl (fun m req =>
    match req.status, req.respondedAt with
    | RequestStatus.rejected, some t =>
      if t < nowMs - 3600000 then m else m ++ [(req.targetUserId, req.status)]
    | _, _ => m ++ [(req.targetUserId, req.status)]) []

/-- Output row of `membersWithVisibility` (room.ts lines 362–400). -/
structure ResolvedMember where
  id : Nat
  nickname : String
  wechat : Option String
  qq : Option String
  contactStatus : String
  isConnected : Bool
deriving DecidableEq, Repr

/-- Embeds the per-member body of `membersWithVisibility` (room.ts lines
363–399): `canSeeContact` is the four-way disjunction and `wechat`/`qq`
are nulled out when it is false. -/
def resolveMember (currentUserId : Option Nat) (connSet : List Nat)
    (privacyEntries : List (Nat × Option Bool))
    (statusEntries : List (Nat × RequestStatus)) (u : UserRow) : ResolvedMember :=
  let isCurrentUser : Bool := decide (some u.id = currentUserId)
  let isConnected : Bool := connSet.any (fun x => decide (x = u.id))
  let hasAutoShare : Bool := decide (u.autoShareContact = some true)
  let isPublicInRoom : Bool := decide (jsMapGet privacyEntries u.id = some (some true))
  let requestStatus := jsMapGet statusEntries u.id
  let canSee := isCurrentUser || isConnected || hasAutoShare || isPublicInRoom
  let contactStatus : String :=
    if canSee then "visible"
    else if requestStatus = some RequestStatus.pending then "pending"
    else if requestStatus = some RequestStatus.rejected then "rejected"
    else "hidden"
  { id := u.id
    nickname := u.nickname
    wechat := if canSee then u.wechat else none
    qq := if canSee then u.qq else none
    contactStatus := contactStatus
    isConnected := isConnected }

/-- Member rows of a room joined with their `users` rows, in join order. -/
def roomMemberUsers (db : DB) (roomId : Nat) : List UserRow :=
  (db.members.filter (fun m => decide (m.roomId = roomId))).filterMap
    (fun m => db.users.find? (fun u => decide (u.id = m.userId)))

/-- Privacy settings of one room as `(user_id, is_public)` map entries
(room.ts lines 301–306). -/
def roomPrivacyEntries (db : DB) (roomId : Nat) : List (Nat × Option Bool) :=
  (db.privacy.filter (fun p => decide (p.roomId = roomId))).map
    (fun p => (p.userId, p.isPublic))

/-- Connection set of the viewer, empty when no viewer is given
(room.ts lines 309–322). -/
def viewerConnSet (db : DB) (currentUserId : Option Nat) : List Nat :=
  match currentUserId with
  | none => []
  | some v => connectionOthers v db.connections

/-- Request-status map of the viewer, empty when no viewer is given
(room.ts lines 333–352). -/
def viewerStatusEntries (db : DB) (nowMs : Int) (currentUserId : Option Nat) :
    List (Nat × RequestStatus) :=
  match currentUserId with
  | none => []
  | some v =>
    requestStatusEntries nowMs (db.requests.filter (fun r => decide (r.requesterId = v)))

/-- Embeds the whole member-resolution pipeline of `GET /rooms/:roomId`:
batched privacy settings, the viewer's connection set and request-status
map, then the per-member visibility mapping. -/
def resolveMembers (db : DB) (roomId : Nat) (currentUserId : Option Nat)
    (nowMs : Int) : List ResolvedMember :=
  (roomMemberUsers db roomId).map
    (resolveMember currentUserId (viewerConnSet db currentUserId)
      (roomPrivacyEntries db roomId) (viewerStatusEntries db nowMs currentUserId))

/-- Written from the spec sentence for C1: the member's contact data is
exposed exactly when the member is the viewer, the pair is connected,
the member opted into global sharing, or the member made this room
public.  This is the comparison target for the code-side `canSeeContact`. -/
def specCanSeeContact (db : DB) (roomId : Nat) (viewer : Option Nat) (u : UserRow) : Prop :=
  viewer = some u.id ∨
  (∃ v, viewer = some v ∧ ∃ c ∈ db.connections,
    (c.userId1 = v ∧ c.userId2 = u.id) ∨ (c.userId2 = v ∧ c.userId1 = u.id)) ∨
  u.autoShareContact = some true ∨
  (∃ p ∈ db.privacy, p.roomId = roomId ∧ p.userId = u.id ∧ p.isPublic = some true)

/-! ## Room resolver and membership manager -/

/-- Natural-key input of the find-or-create course/room sequence shared by
`roomRoutes.post('/join')` (room.ts lines 153–218) and
`scheduleRoutes.post('/confirm')` (schedule.ts lines 118–172). -/
structure RoomKey where
  courseName : String
  school : String
  code : Option String
  semesterId : String
  dayOfWeek : Nat
  startTime : String
  endTime : String
  professor : String
  classroom : String
  weeks : String
deriving DecidableEq, Repr

/-- Embeds the course lookup-or-insert: `SELECT id FROM courses WHERE
name = ? AND school = ?`, inserting on absence. -/
def findOrCreateCourse (db : DB) (k : RoomKey) : Nat × DB :=
  match db.courses.find? (fun c => decide (c.name = k.courseName ∧ c.school = k.school)) with
  | some c => (c.id, db)
  | none =>
    (db.nextId,
     { db with
       courses := db.courses ++
         [{ id := db.nextId, name := k.courseName, school := k.school, code := k.code }]
       nextId := db.nextId + 1 })

/-- Room natural-key match used by both join flows: the full widened
8-tuple (course, semester, day, start, end, professor, classroom, weeks),
matching the `course_rooms_unique_section` constraint. -/
def roomMatches (courseId : Nat) (k : RoomKey) (r : RoomRow) : Bool :=
  decide (r.courseId = courseId ∧ r.semesterId = k.semesterId ∧
    r.dayOfWeek = k.dayOfWeek ∧ r.startTime = k.startTime ∧ r.endTime = k.endTime ∧
    r.professor = k.professor ∧ r.classroom = k.classroom ∧ r.weeks = k.weeks)

/-- Embeds the room lookup-or-insert: select by the full natural key, and
insert with `member_count = 0` on absence.  The returned row carries the
`member_count` as selected, i.e. before any membership insert. -/
def findOrCreateRoom (db : DB) (courseId : Nat) (k : RoomKey) : RoomRow × DB :=
  match db.rooms.find? (roomMatches courseId k) with
  | some r => (r, db)
  | none =>
    let r : RoomRow :=
      { id := db.nextId, courseId := courseId, semesterId := k.semesterId
        dayOfWeek := k.dayOfWeek, startTime := k.startTime, endTime := k.endTime
        professor := k.professor, classroom := k.classroom, weeks := k.weeks
        memberCount := 0 }
    (r, { db with rooms := db.rooms ++ [r], nextId := db.nextId + 1 })

/-- Find-or-create for course then room, the Room Resolver of both join
flows. -/
def resolveRoom (db : DB) (k : RoomKey) : RoomRow × DB :=
  let step := findOrCreateCourse db k
  findOrCreateRoom step.2 step.1 k

/-- Embeds a `room_members` INSERT together with the AFTER INSERT arm of
the `handle_room_member_count` trigger: append the row and increment the
room's `member_count` by 1. -/
def insertMember (db : DB) (roomId userId : Nat) : DB :=
  { db with
    members := db.members ++ [⟨roomId, userId⟩]
    rooms := db.rooms.map (fun r =>
      if r.id = roomId then { r with memberCount := r.memberCount + 1 } else r) }

/-- Embeds a `room_members` DELETE of one `(room_id, user_id)` pair
together with the AFTER DELETE arm of the trigger: remove the first
matching row and decrement the room's `member_count` by 1; with no
matching row nothing happens. -/
def deleteMember (db : DB) (roomId userId : Nat) : DB :=
  if db.members.any (fun m => decide (m.roomId = roomId ∧ m.userId = userId)) then
    { db with
      members := db.members.eraseP (fun m => decide (m.roomId = roomId ∧ m.userId = userId))
      rooms := db.rooms.map (fun r =>
        if r.id = roomId then { r with memberCount := r.memberCount - 1 } else r) }
  else db

/-- Embeds the membership part of both join flows: select the
`(room_id, user_id)` row and insert only on absence (idempotent join). -/
def joinRoom (db : DB) (roomId userId : Nat) : DB :=
  if db.members.any (fun m => decide (m.roomId = roomId ∧ m.userId = userId)) then db
  else insertMember db roomId userId

/-- Embeds `roomRoutes.post('/join')` after the catalog lookup (room.ts
lines 168–242): resolve the room, join it, return the room id.  This
flow inserts no notifications. -/
def roomJoin (db : DB) (userId : Nat) (k : RoomKey) : Nat × DB :=
  let step := resolveRoom db k
  (step.1.id, joinRoom step.2 step.1.id userId)

/-- Embeds one iteration of the `scheduleRoutes.post('/confirm')` course
loop (schedule.ts lines 118–222): resolve the room, insert the
membership on absence, and when the room's `member_count` as selected
before the insert was positive, insert one `new_member` notification per
current member other than the joining user. -/
def confirmJoinCourse (db : DB) (userId : Nat) (k : RoomKey) : DB :=
  let step := resolveRoom db k
  let room := step.1
  let db1 := step.2
  if db1.members.any (fun m => decide (m.roomId = room.id ∧ m.userId = userId)) then db1
  else
    let db2 := insertMember db1 room.id userId
    if 0 < room.memberCount then
      let others := (db2.members.filter
        (fun m => decide (m.roomId = room.id ∧ ¬ m.userId = userId))).map MemberRow.userId
      if others.isEmpty then db2
      else
        { db2 with
          notifications := db2.notifications ++ others.map
            (fun uid =>
              { userId := uid, ntype := "new_member", roomId := some room.id
                requestId := none }) }
    else db2

/-- Operations that touch `room_members` or `member_count`: the two join
flows and a membership delete. -/
inductive Op where
  | roomJoinOp (userId : Nat) (k : RoomKey)
  | confirmJoinOp (userId : Nat) (k : RoomKey)
  | leaveOp (roomId userId : Nat)

/-- Runs one operation against the store. -/
def applyOp (db : DB) : Op → DB
  | Op.roomJoinOp u k => (roomJoin db u k).2
  | Op.confirmJoinOp u k => confirmJoinCourse db u k
  | Op.leaveOp r u => deleteMember db r u

/-- Runs a sequence of operations against the store. -/
def applyOps (db : DB) (ops : List Op) : DB := ops.foldl applyOp db

/-- Derived-counter invariant: every room's `member_count` equals the
number of its `room_members` rows. -/
def memberCountInv (db : DB) : Prop :=
  ∀ r ∈ db.rooms, r.memberCount =
    ((db.members.filter (fun m => decide (m.roomId = r.id))).length : Int)

/-- Id discipline of `uuid_generate_v4()` in the model: every id already
in the store is below the fresh counter. -/
def freshIds (db : DB) : Prop :=
  (∀ r ∈ db.rooms, r.id < db.nextId) ∧ (∀ c ∈ db.courses, c.id < db.nextId) ∧
  (∀ m ∈ db.members, m.roomId < db.nextId)

/-- Store well-formedness carried through operation sequences. -/
def Inv (db : DB) : Prop := memberCountInv db ∧ freshIds db

/-- Member count of a room as read back from the store. -/
def roomCount (db : DB) (roomId : Nat) : Option Int :=
  (db.rooms.find? (fun r => decide (r.id = roomId))).map RoomRow.memberCount

/-- Empty store. -/
def emptyDB : DB :=
  { users := [], courses := [], rooms := [], members := [], connections := []
    requests := [], privacy := [], notifications := [], nextId := 0 }

/-! ## Contact request handlers (part_009) -/

/-- Error outcomes of the contact handlers distinguished by the routes. -/
inductive ApiError where
  | notFound
  | selfRequest
  | alreadyConnected
  | cannotRequest
  | quotaExceeded
deriving DecidableEq, Repr

/-- Match used by `POST /respond` (part_009 lines 140–146): id, target
user and pending status must all match (`.single()` on the triple-`eq`
select). -/
def respondMatch (requestId userId : Nat) (r : RequestRow) : Bool :=
  decide (r.id = requestId ∧ r.targetUserId = userId ∧ r.status = RequestStatus.pending)

/-- First component of the canonical connection ordering in the respond
handler: `requester_id < target_user_id ? requester : target`. -/
def canonicalUid1 (a b : Nat) : Nat := if a < b then a else b

/-- Second component of the canonical connection ordering. -/
def canonicalUid2 (a b : Nat) : Nat := if a < b then b else a

/-- Embeds `contactRoutes.post('/respond')` (part_009 lines 129–212):
look up the pending request addressed to `userId`; on absence answer
"not found"; otherwise set the status and `responded_at`, on accept
insert the canonically-ordered connection tolerating a duplicate as a
no-op, and notify the requester. -/
def respond (now : Int) (db : DB) (requestId userId : Nat) (accept : Bool) :
    Except ApiError DB :=
  match db.requests.find? (respondMatch requestId userId) with
  | none => Except.error ApiError.notFound
  | some req =>
    let newStatus := if accept then RequestStatus.accepted else RequestStatus.rejected
    let db1 := { db with requests := db.requests.map (fun (r : RequestRow) =>
      if r.id = requestId then { r with status := newStatus, respondedAt := some now }
      else r) }
    let uid1 := canonicalUid1 req.requesterId req.targetUserId
    let uid2 := canonicalUid2 req.requesterId req.targetUserId
    let db2 :=
      if accept then
        if db1.connections.any (fun c => decide (c.userId1 = uid1 ∧ c.userId2 = uid2)) then
          db1
        else { db1 with connections := db1.connections ++ [(⟨uid1, uid2, req.roomId⟩ : ConnectionRow)] }
      else db1
    Except.ok { db2 with notifications := db2.notifications ++
      [({ userId := req.requesterId
          ntype := if accept then "contact_accepted" else "contact_rejected"
          roomId := none, requestId := some requestId } : NotificationRow)] }

/-- Embeds `contactRoutes.post('/request')` (part_009 lines 18–118):
self-requests always fail; then the handler checks `are_connected` and
`can_request_contact`; on success it deletes any prior row for the exact
ordered pair, inserts a fresh pending row and notifies the target. -/
def request (now : Int) (db : DB) (requesterId targetId : Nat) (roomId : Option Nat)
    (message : Option String) : Except ApiError DB :=
  if requesterId = targetId then Except.error ApiError.selfRequest
  else if are_connected requesterId targetId db.connections then
    Except.error ApiError.alreadyConnected
  else if can_request_contact now requesterId targetId db.connections db.requests then
    Except.ok { db with
      requests := (db.requests.filter (fun r =>
          ! decide (r.requesterId = requesterId ∧ r.targetUserId = targetId))) ++
        [{ id := db.nextId, requesterId := requesterId, targetUserId := targetId
           roomId := roomId, status := RequestStatus.pending, message := message
           createdAt := now, respondedAt := none }]
      notifications := db.notifications ++
        [{ userId := targetId, ntype := "contact_request", roomId := roomId
           requestId := some db.nextId }]
      nextId := db.nextId + 1 }
  else Except.error ApiError.cannotRequest

/-! ## Quota gate (`lib/quota.ts`, part_006 lines 1–42) -/

/-- Embeds `nextResetAt()`: midnight at the start of the next UTC day
(`setUTCHours(24, 0, 0, 0)`), in seconds since the epoch. -/
def nextResetAt (now : Int) : Int := (now / 86400 + 1) * 86400

/-- Quota columns of the `users` row as read by `consumeQuota`. -/
structure QuotaRow where
  matchQuotaRemaining : Option Int
  matchQuotaResetAt : Option Int
deriving DecidableEq, Repr

/-- Embeds `consumeQuota(userId, isEdu)`: privileged callers return
without touching the row; otherwise the counter lazily resets to
`DAILY_QUOTA` when `reset_at` is null or not in the future, a
non-positive remainder throws `Quota exceeded`, and on success the row
is written back with `remaining - 1` and the next UTC midnight.
`Except.ok none` is the privileged early return (no row mutation);
`Except.ok (some row)` carries the written row. -/
def consumeQuota (dailyQuota : Int) (now : Int) (user : QuotaRow) (isEdu : Bool) :
    Except ApiError (Option QuotaRow) :=
  if isEdu then Except.ok none
  else
    let remaining0 := user.matchQuotaRemaining.getD dailyQuota
    let remaining :=
      match user.matchQuotaResetAt with
      | none => dailyQuota
      | some resetAt => if resetAt ≤ now then dailyQuota else remaining0
    if remaining ≤ 0 then Except.error ApiError.quotaExceeded
    else Except.ok (some
      { matchQuotaRemaining := some (remaining - 1)
        matchQuotaResetAt := some (nextResetAt now) })

/-! ## Concrete fixtures used by witness theorems -/

/-- Concrete user for the C1 witness: contact data present, no global
sharing opt-in. -/
def uC1 : UserRow :=
  { id := 1, nickname := "a", wechat := some "w", qq := some "q"
    autoShareContact := some false, matchQuotaRemaining := none
    matchQuotaResetAt := none }

/-- Concrete store for the C1 witness: one room (id 5) with the single
member `uC1`, no connections, requests or privacy settings. -/
def dbC1 : DB :=
  { users := [uC1], courses := [], rooms := [], members := [⟨5, 1⟩]
    connections := [], requests := [], privacy := [], notifications := []
    nextId := 10 }

/-- Natural key for the C7 fixtures. -/
def kC7 : RoomKey :=
  { courseName := "c", school := "s", code := none, semesterId := "sem"
    dayOfWeek := 1, startTime := "08:00", endTime := "09:00", professor := "p"
    classroom := "r", weeks := "" }

/-- Concrete store for C7: one course, one room matching `kC7` with the
single member user 10 and `member_count = 1`. -/
def dbC7 : DB :=
  { users := []
    courses := [{ id := 0, name := "c", school := "s", code := none }]
    rooms := [{ id := 1, courseId := 0, semesterId := "sem", dayOfWeek := 1
                startTime := "08:00", endTime := "09:00", professor := "p"
                classroom := "r", weeks := "", memberCount := 1 }]
    members := [⟨1, 10⟩], connections := [], requests := [], privacy := []
    notifications := [], nextId := 2 }

/-- Concrete request for the C5 witness: pending, from user 2 to user 1. -/
def rC5 : RequestRow :=
  { id := 7, requesterId := 2, targetUserId := 1, roomId := none
    status := RequestStatus.pending, message := none, createdAt := 0
    respondedAt := none }

/-- Concrete store for the C5 witness: only the pending request `rC5`. -/
def dbC5 : DB :=
  { users := [], courses := [], rooms := [], members := [], connections := []
    requests := [rC5], privacy := [], notifications := [], nextId := 10 }

/-- Concrete request for the C2 witness: rejected at time 0. -/
def rC2 : RequestRow :=
  { id := 1, requesterId := 1, targetUserId := 2, roomId := none
    status := RequestStatus.rejected, message := none, createdAt := 0
    respondedAt := some 0 }

/-! ## Lemmas about the batched lookups -/

theorem resolveMember_wechat (cu : Option Nat) (cs : List Nat)
    (pe : List (Nat × Option Bool)) (se : List (Nat × RequestStatus)) (u : UserRow) :
    (resolveMember cu cs pe se u).wechat =
      if (decide (some u.id = cu) || cs.any (fun x => decide (x = u.id)) ||
          decide (u.autoShareContact = some true) ||
          decide (jsMapGet pe u.id = some (some true))) = true
      then u.wechat else none := rfl

theorem resolveMember_qq (cu : Option Nat) (cs : List Nat)
    (pe : List (Nat × Option Bool)) (se : List (Nat × RequestStatus)) (u : UserRow) :
    (resolveMember cu cs pe se u).qq =
      if (decide (some u.id = cu) || cs.any (fun x => decide (x = u.id)) ||
          decide (u.autoShareContact = some true) ||
          decide (jsMapGet pe u.id = some (some true))) = true
      then u.qq else none := rfl

theorem mem_connectionOthers {v m : Nat} {conns : List ConnectionRow} :
    m ∈ connectionOthers v conns ↔
      ∃ c ∈ conns, (c.userId1 = v ∧ c.userId2 = m) ∨ (c.userId2 = v ∧ c.userId1 = m) := by
  simp only [connectionOthers, List.mem_map, List.mem_filter, decide_eq_true_eq]
  constructor
  · rintro ⟨c, ⟨hc, hv⟩, hm⟩
    refine ⟨c, hc, ?_⟩
    by_cases h1 : c.userId1 = v
    · simp only [if_pos h1] at hm
      exact Or.inl ⟨h1, hm⟩
    · rcases hv with hv | hv
      · exact absurd hv h1
      · simp only [if_neg h1] at hm
        exact Or.inr ⟨hv, hm⟩
  · rintro ⟨c, hc, ⟨h1, h2⟩ | ⟨h1, h2⟩⟩
    · exact ⟨c, ⟨hc, Or.inl h1⟩, by simp [h1, h2]⟩
    · refine ⟨c, ⟨hc, Or.inr h1⟩, ?_⟩
      by_cases hx : c.userId1 = v
      · simp only [if_pos hx]
        omega
      · simp only [if_neg hx]
        exact h2

theorem jsMapGet_eq_some_iff {α : Type} {entries : List (Nat × α)} {k : Nat} {x : α}
    (hnd : (entries.map Prod.fst).Nodup) :
    jsMapGet entries k = some x ↔ (k, x) ∈ entries := by
  induction entries generalizing x with
  | nil => simp [jsMapGet]
  | cons e rest ih =>
    simp only [List.map_cons, List.nodup_cons] at hnd
    obtain ⟨hk, hrest⟩ := hnd
    simp only [jsMapGet]
    cases hrec : jsMapGet rest k with
    | some v =>
      have hv : (k, v) ∈ rest := (ih hrest).1 hrec
      have hkmem : k ∈ rest.map Prod.fst := List.mem_map_of_mem Prod.fst hv
      constructor
      · intro h
        injection h with h
        subst h
        exact List.mem_cons_of_mem _ hv
      · intro h
        rcases List.mem_cons.1 h with h | h
        · subst h
          exact absurd hkmem hk
        · rw [← (ih hrest).2 h, hrec]
    | none =>
      have hnone : ∀ y, (k, y) ∉ rest := by
        intro y hy
        have h2 := (ih hrest).2 hy
        rw [hrec] at h2
        exact Option.noConfusion h2
      by_cases he : e.1 = k
      · simp only [if_pos he]
        constructor
        · intro h
          injection h with h
          subst h
          have hx : e = (k, e.2) := by
            rw [← he]
          exact List.mem_cons.2 (Or.inl hx.symm)
        · intro h
          rcases List.mem_cons.1 h with h | h
          · subst h
            rfl
          · exact absurd h (hnone x)
      · simp only [if_neg he]
        constructor
        · intro h
          exact Option.noConfusion h
        · intro h
          rcases List.mem_cons.1 h with h | h
          · subst h
            exact absurd rfl he
          · exact absurd h (hnone x)

theorem jsMapGet_roomPrivacy_iff (db : DB) (roomId uid : Nat)
    (hnd : ((db.privacy.filter (fun p => decide (p.roomId = roomId))).map
      PrivacyRow.userId).Nodup) :
    jsMapGet (roomPrivacyEntries db roomId) uid = some (some true) ↔
      ∃ p ∈ db.privacy, p.roomId = roomId ∧ p.userId = uid ∧ p.isPublic = some true := by
  have hnd2 : ((roomPrivacyEntries db roomId).map Prod.fst).Nodup := by
    simpa [roomPrivacyEntries, List.map_map, Function.comp] using hnd
  rw [jsMapGet_eq_some_iff hnd2]
  simp only [roomPrivacyEntries, List.mem_map, List.mem_filter, decide_eq_true_eq,
    Prod.mk.injEq]
  constructor
  · rintro ⟨p, ⟨hp, hr⟩, hu, hb⟩
    exact ⟨p, hp, hr, hu, hb⟩
  · rintro ⟨p, hp, hr, hu, hb⟩
    exact ⟨p, ⟨hp, hr⟩, hu, hb⟩

/-- C1: in the `resolveMembers` output, a member's `wechat` and `qq` are
passed through exactly when the member is the viewer themself, the viewer
and member have a `user_connections` row, the member's global
`auto_share_contact` is true, or the member's privacy setting for this
room has `is_public = true`; otherwise both fields are nulled out
regardless of the stored values.  The `Nodup` hypothesis reflects the
`UNIQUE(user_id, room_id)` constraint on `room_privacy_settings`. -/
theorem C1_contact_visibility (db : DB) (roomId : Nat) (nowMs : Int)
    (viewer : Option Nat) (u : UserRow)
    (hnd : ((db.privacy.filter (fun p => decide (p.roomId = roomId))).map
      PrivacyRow.userId).Nodup)
    (hmem : u ∈ roomMemberUsers db roomId) :
    ∃ out ∈ resolveMembers db roomId viewer nowMs,
      out.id = u.id ∧
      (specCanSeeContact db roomId viewer u → out.wechat = u.wechat ∧ out.qq = u.qq) ∧
      (¬ specCanSeeContact db roomId viewer u → out.wechat = none ∧ out.qq = none) := by
  have hconn : ((viewerConnSet db viewer).any (fun x => decide (x = u.id)) = true) ↔
      (∃ v, viewer = some v ∧ ∃ c ∈ db.connections,
        (c.userId1 = v ∧ c.userId2 = u.id) ∨ (c.userId2 = v ∧ c.userId1 = u.id)) := by
    cases viewer with
    | none => simp [viewerConnSet]
    | some v =>
      simp only [viewerConnSet, List.any_eq_true, decide_eq_true_eq]
      constructor
      · rintro ⟨x, hx, rfl⟩
        exact ⟨v, rfl, mem_connectionOthers.1 hx⟩
      · rintro ⟨w, hw, hc⟩
        injection hw with hw
        subst hw
        exact ⟨u.id, mem_connectionOthers.2 hc, rfl⟩
  have hpriv := jsMapGet_roomPrivacy_iff db roomId u.id hnd
  have hlink : (decide (some u.id = viewer) ||
      (viewerConnSet db viewer).any (fun x => decide (x = u.id)) ||
      decide (u.autoShareContact = some true) ||
      decide (jsMapGet (roomPrivacyEntries db roomId) u.id = some (some true))) = true ↔
      specCanSeeContact db roomId viewer u := by
    simp only [Bool.or_eq_true, decide_eq_true_eq, hconn, hpriv, specCanSeeContact]
    constructor
    · rintro (((h | h) | h) | h)
      · exact Or.inl h.symm
      · exact Or.inr (Or.inl h)
      · exact Or.inr (Or.inr (Or.inl h))
      · exact Or.inr (Or.inr (Or.inr h))
    · rintro (h | h | h | h)
      · exact Or.inl (Or.inl (Or.inl h.symm))
      · exact Or.inl (Or.inl (Or.inr h))
      · exact Or.inl (Or.inr h)
      · exact Or.inr h
  have hout : resolveMember viewer (viewerConnSet db viewer) (roomPrivacyEntries db roomId)
      (viewerStatusEntries db nowMs viewer) u ∈ resolveMembers db roomId viewer nowMs := by
    unfold resolveMembers
    exact List.mem_map_of_mem _ hmem
  refine ⟨resolveMember viewer (viewerConnSet db viewer) (roomPrivacyEntries db roomId)
      (viewerStatusEntries db nowMs viewer) u, hout, rfl, ?_, ?_⟩
  · intro hs
    have hb := hlink.2 hs
    exact ⟨by rw [resolveMember_wechat, if_pos hb], by rw [resolveMember_qq, if_pos hb]⟩
  · intro hs
    have hb : ¬ ((decide (some u.id = viewer) ||
        (viewerConnSet db viewer).any (fun x => decide (x = u.id)) ||
        decide (u.autoShareContact = some true) ||
        decide (jsMapGet (roomPrivacyEntries db roomId) u.id = some (some true))) = true) :=
      fun h => hs (hlink.1 h)
    exact ⟨by rw [resolveMember_wechat, if_neg hb], by rw [resolveMember_qq, if_neg hb]⟩

/-- Witness for C1 at a concrete store: member 1 of room 5 viewed
anonymously. -/
theorem C1_contact_visibility_witness :
    ∃ out ∈ resolveMembers dbC1 5 none 0,
      out.id = 1 ∧
      (specCanSeeContact dbC1 5 none uC1 → out.wechat = uC1.wechat ∧ out.qq = uC1.qq) ∧
      (¬ specCanSeeContact dbC1 5 none uC1 → out.wechat = none ∧ out.qq = none) := by
  have h := C1_contact_visibility dbC1 5 0 none uC1 (by decide) (by decide)
  simpa [uC1] using h

/-! ## Contact graph: `can_request_contact` (C2) -/

theorem foldl_laterRequest_some (xs : List RequestRow) (q : RequestRow) :
    ∃ r, xs.foldl laterRequest (some q) = some r := by
  induction xs generalizing q with
  | nil => exact ⟨q, rfl⟩
  | cons x xs ih =>
    simp only [List.foldl_cons, laterRequest]
    by_cases h : q.createdAt < x.createdAt
    · simp only [if_pos h]
      exact ih x
    · simp only [if_neg h]
      exact ih q

theorem lastRequest_eq_none_iff (a b : Nat) (reqs : List RequestRow) :
    lastRequest a b reqs = none ↔
      reqs.filter (fun r => decide (r.requesterId = a ∧ r.targetUserId = b)) = [] := by
  unfold lastRequest
  cases hF : reqs.filter (fun r => decide (r.requesterId = a ∧ r.targetUserId = b)) with
  | nil => simp
  | cons x xs =>
    simp only [List.foldl_cons]
    have hx : laterRequest none x = some x := rfl
    rw [hx]
    obtain ⟨r, hr⟩ := foldl_laterRequest_some xs x
    rw [hr]
    simp

theorem lastRequest_singleton {a b : Nat} {reqs : List RequestRow} {r : RequestRow}
    (hF : reqs.filter (fun r => decide (r.requesterId = a ∧ r.targetUserId = b)) = [r]) :
    lastRequest a b reqs = some r := by
  unfold lastRequest
  rw [hF]
  rfl

/-- C2: `can_request_contact(a, b)` is false exactly when the pair is
already connected, a pending request from `a` to `b` exists, or the most
recent request from `a` to `b` is rejected with `responded_at` inside the
one-hour cooldown.  The hypotheses reflect the schema and the respond
handler: at most one `contact_requests` row per ordered pair
(`UNIQUE(requester_id, target_user_id)`), an accepted request implies a
connection row, and a rejected request has `responded_at` set.  In
particular a rejection at time `T` blocks at `T+3599 s` and allows at
`T+3601 s` (see the witness). -/
theorem C2_canRequest (now : Int) (a b : Nat) (conns : List ConnectionRow)
    (reqs : List RequestRow)
    (huniq : (reqs.filter
      (fun r => decide (r.requesterId = a ∧ r.targetUserId = b))).length ≤ 1)
    (hacc : ∀ r, lastRequest a b reqs = some r → r.status = RequestStatus.accepted →
      are_connected a b conns = true)
    (hrej : ∀ r, lastRequest a b reqs = some r → r.status = RequestStatus.rejected →
      r.respondedAt.isSome) :
    can_request_contact now a b conns reqs = false ↔
      (are_connected a b conns = true ∨
       (∃ r ∈ reqs, r.requesterId = a ∧ r.targetUserId = b ∧
         r.status = RequestStatus.pending) ∨
       (∃ r, lastRequest a b reqs = some r ∧ r.status = RequestStatus.rejected ∧
         ∃ t, r.respondedAt = some t ∧ now - 3600 ≤ t)) := by
  have hpend : (∃ r ∈ reqs, r.requesterId = a ∧ r.targetUserId = b ∧
      r.status = RequestStatus.pending) ↔
      (∃ r ∈ reqs.filter (fun r => decide (r.requesterId = a ∧ r.targetUserId = b)),
        r.status = RequestStatus.pending) := by
    simp only [List.mem_filter, decide_eq_true_eq]
    constructor
    · rintro ⟨r, hr, h1, h2, h3⟩
      exact ⟨r, ⟨hr, h1, h2⟩, h3⟩
    · rintro ⟨r, ⟨hr, h1, h2⟩, h3⟩
      exact ⟨r, hr, h1, h2, h3⟩
  cases hconn : are_connected a b conns with
  | true => simp [can_request_contact, hconn]
  | false =>
    simp only [can_request_contact, hconn, Bool.false_eq_true, if_false, false_or]
    rcases hlen : reqs.filter (fun r => decide (r.requesterId = a ∧ r.targetUserId = b))
      with _ | ⟨r, rest⟩
    · have hnone : lastRequest a b reqs = none := (lastRequest_eq_none_iff a b reqs).2 hlen
      rw [hnone]
      simp only [hpend, hlen, hnone]
      simp
    · have hrest : rest = [] := by
        rw [hlen] at huniq
        simp only [List.length_cons] at huniq
        exact List.eq_nil_of_length_eq_zero (by omega)
      subst hrest
      have hsome : lastRequest a b reqs = some r := lastRequest_singleton hlen
      rw [hsome]
      have hred : (match some r with
          | none => true
          | some r =>
            if r.status = RequestStatus.pending then false
            else if r.status = RequestStatus.rejected then cooldownExpired now r.respondedAt
            else false) =
          (if r.status = RequestStatus.pending then false
           else if r.status = RequestStatus.rejected then cooldownExpired now r.respondedAt
           else false) := rfl
      rw [hred]
      rcases hst : r.status with _ | _ | _
      · -- pending
        simp only [if_pos rfl, reduceCtorEq]
        rw [hpend, hlen]
        constructor
        · intro _
          exact Or.inl ⟨r, List.mem_singleton_self r, hst⟩
        · intro _
          rfl
      · -- accepted
        have hc := hacc r hsome hst
        rw [hc] at hconn
        exact absurd hconn (by simp)
      · -- rejected
        have hrs := hrej r hsome hst
        rcases ht : r.respondedAt with _ | t
        · rw [ht] at hrs
          exact absurd hrs (by simp)
        · simp only [reduceCtorEq, eq_self_iff_true, if_true, if_false, cooldownExpired,
            decide_eq_false_iff_not, not_lt]
          rw [hpend, hlen]
          constructor
          · intro h
            exact Or.inr ⟨r, rfl, hst, t, ht, h⟩
          · rintro (⟨q, hq, hqs⟩ | ⟨q, hq, hqs, s, hs1, hs2⟩)
            · rw [List.mem_singleton] at hq
              subst hq
              rw [hst] at hqs
              exact absurd hqs (by simp)
            · injection hq with hq
              subst hq
              rw [ht] at hs1
              injection hs1 with hs1
              subst hs1
              exact hs2

/-- Witness for C2 at the cooldown boundary: a request rejected at time 0
blocks a re-send at 3599 s (T+59m59s) and allows it at 3601 s (T+1h0m1s). -/
theorem C2_canRequest_witness :
    can_request_contact 3599 1 2 [] [rC2] = false ∧
    can_request_contact 3601 1 2 [] [rC2] = true := by
  have hlast : lastRequest 1 2 [rC2] = some rC2 := by decide
  have huniq : (List.filter
      (fun r => decide (r.requesterId = 1 ∧ r.targetUserId = 2)) [rC2]).length ≤ 1 := by
    decide
  have hacc : ∀ r, lastRequest 1 2 [rC2] = some r →
      r.status = RequestStatus.accepted → are_connected 1 2 [] = true := by
    intro r h hs
    rw [hlast] at h
    injection h with h
    subst h
    exact absurd hs (by decide)
  have hrej : ∀ r, lastRequest 1 2 [rC2] = some r →
      r.status = RequestStatus.rejected → r.respondedAt.isSome := by
    intro r h _
    rw [hlast] at h
    injection h with h
    subst h
    decide
  constructor
  · exact (C2_canRequest 3599 1 2 [] [rC2] huniq hacc hrej).2
      (Or.inr (Or.inr ⟨rC2, hlast, rfl, 0, rfl, by decide⟩))
  · have hiff := C2_canRequest 3601 1 2 [] [rC2] huniq hacc hrej
    cases hval : can_request_contact 3601 1 2 [] [rC2] with
    | true => rfl
    | false =>
      exfalso
      rcases hiff.1 hval with h | h | h
      · exact absurd h (by decide)
      · rcases h with ⟨r, hr, h1, h2, h3⟩
        rw [List.mem_singleton] at hr
        subst hr
        exact absurd h3 (by decide)
      · rcases h with ⟨r, hr, hrs, t, hta, hle⟩
        rw [hlast] at hr
        injection hr with hr
        subst hr
        have h3 : some (0 : Int) = some t := hta
        injection h3 with h3
        omega

/-! ## Member-count bookkeeping (C3) -/

theorem find?_map_memberCount (l : List RoomRow) (roomId : Nat) (f : Int → Int) :
    ((l.map (fun r => if r.id = roomId then { r with memberCount := f r.memberCount }
        else r)).find? (fun r => decide (r.id = roomId))).map RoomRow.memberCount =
    ((l.find? (fun r => decide (r.id = roomId))).map RoomRow.memberCount).map f := by
  induction l with
  | nil => rfl
  | cons r l ih =>
    by_cases h : r.id = roomId
    · rw [List.map_cons, if_pos h]
      rw [List.find?_cons_of_pos _ (by simp [h]), List.find?_cons_of_pos _ (by simp [h])]
      simp
    · rw [List.map_cons, if_neg h]
      rw [List.find?_cons_of_neg _ (by simp [h]), List.find?_cons_of_neg _ (by simp [h])]
      exact ih

theorem roomCount_insertMember (db : DB) (roomId userId : Nat) :
    roomCount (insertMember db roomId userId) roomId =
      (roomCount db roomId).map (fun x => x + 1) :=
  find?_map_memberCount db.rooms roomId (fun x => x + 1)

theorem roomCount_deleteMember (db : DB) (roomId userId : Nat)
    (h : db.members.any (fun m => decide (m.roomId = roomId ∧ m.userId = userId)) = true) :
    roomCount (deleteMember db roomId userId) roomId =
      (roomCount db roomId).map (fun x => x - 1) := by
  unfold deleteMember
  rw [if_pos h]
  exact find?_map_memberCount db.rooms roomId (fun x => x - 1)

theorem eraseP_roomFilter (l : List MemberRow) (roomId userId rid : Nat)
    (hany : l.any (fun m => decide (m.roomId = roomId ∧ m.userId = userId)) = true) :
    (((l.eraseP (fun m => decide (m.roomId = roomId ∧ m.userId = userId))).filter
        (fun m => decide (m.roomId = rid))).length =
      (l.filter (fun m => decide (m.roomId = rid))).length -
        (if roomId = rid then 1 else 0)) ∧
    (roomId = rid → 1 ≤ (l.filter (fun m => decide (m.roomId = rid))).length) := by
  induction l with
  | nil => simp at hany
  | cons x l ih =>
    by_cases hx : (x.roomId = roomId ∧ x.userId = userId)
    · rw [List.eraseP_cons_of_pos (by simp [hx.1, hx.2])]
      by_cases hr : roomId = rid
      · rw [if_pos hr]
        rw [List.filter_cons_of_pos (by simp [hx.1, hr])]
        exact ⟨by simp, fun _ => by simp⟩
      · rw [if_neg hr]
        rw [List.filter_cons_of_neg (by simp [hx.1, hr])]
        exact ⟨rfl, fun h => absurd h hr⟩
    · rw [List.eraseP_cons_of_neg (by simpa using hx)]
      have hany2 : l.any (fun m => decide (m.roomId = roomId ∧ m.userId = userId)) = true := by
        simp only [List.any_cons, Bool.or_eq_true, decide_eq_true_eq] at hany
        rcases hany with h | h
        · exact absurd h hx
        · exact h
      obtain ⟨ih1, ih2⟩ := ih hany2
      by_cases hq : x.roomId = rid
      · rw [List.filter_cons_of_pos (by simp [hq]), List.filter_cons_of_pos (by simp [hq])]
        constructor
        · simp only [List.length_cons]
          by_cases hr : roomId = rid
          · rw [if_pos hr] at ih1 ⊢
            have h2 := ih2 hr
            omega
          · rw [if_neg hr] at ih1 ⊢
            omega
        · intro h
          simp only [List.length_cons]
          omega
      · rw [List.filter_cons_of_neg (by simp [hq]), List.filter_cons_of_neg (by simp [hq])]
        exact ⟨ih1, ih2⟩

theorem memberCountInv_insertMember {db : DB} (roomId userId : Nat)
    (hinv : memberCountInv db) : memberCountInv (insertMember db roomId userId) := by
  intro r hr
  simp only [insertMember, List.mem_map] at hr
  obtain ⟨r0, hr0, rfl⟩ := hr
  have h0 := hinv r0 hr0
  by_cases h : r0.id = roomId
  · rw [if_pos h]
    show r0.memberCount + 1 =
      (((db.members ++ [(⟨roomId, userId⟩ : MemberRow)]).filter
        (fun m => decide (m.roomId = r0.id))).length : Int)
    rw [List.filter_append, List.length_append]
    have hsing : (List.filter (fun m => decide (m.roomId = r0.id))
        [(⟨roomId, userId⟩ : MemberRow)]).length = 1 := by
      simp [h]
    rw [hsing]
    push_cast
    omega
  · rw [if_neg h]
    show r0.memberCount =
      (((db.members ++ [(⟨roomId, userId⟩ : MemberRow)]).filter
        (fun m => decide (m.roomId = r0.id))).length : Int)
    rw [List.filter_append, List.length_append]
    have hsing : (List.filter (fun m => decide (m.roomId = r0.id))
        [(⟨roomId, userId⟩ : MemberRow)]).length = 0 := by
      simp
      omega
    rw [hsing]
    push_cast
    omega

theorem memberCountInv_deleteMember {db : DB} (roomId userId : Nat)
    (hinv : memberCountInv db) : memberCountInv (deleteMember db roomId userId) := by
  unfold deleteMember
  by_cases hany : db.members.any
      (fun m => decide (m.roomId = roomId ∧ m.userId = userId)) = true
  · rw [if_pos hany]
    intro r hr
    simp only [List.mem_map] at hr
    obtain ⟨r0, hr0, rfl⟩ := hr
    have h0 := hinv r0 hr0
    obtain ⟨he1, he2⟩ := eraseP_roomFilter db.members roomId userId r0.id hany
    by_cases h : r0.id = roomId
    · rw [if_pos h]
      show r0.memberCount - 1 =
        (((db.members.eraseP (fun m => decide (m.roomId = roomId ∧ m.userId = userId))).filter
          (fun m => decide (m.roomId = r0.id))).length : Int)
      rw [he1, if_pos h.symm]
      have h2 := he2 h.symm
      omega
    · rw [if_neg h]
      show r0.memberCount =
        (((db.members.eraseP (fun m => decide (m.roomId = roomId ∧ m.userId = userId))).filter
          (fun m => decide (m.roomId = r0.id))).length : Int)
      rw [he1, if_neg (fun hh => h hh.symm)]
      omega
  · rw [if_neg hany]
    exact hinv

theorem freshIds_insertMember {db : DB} {roomId : Nat} (userId : Nat)
    (hf : freshIds db) (hrid : roomId < db.nextId) :
    freshIds (insertMember db roomId userId) := by
  obtain ⟨hf1, hf2, hf3⟩ := hf
  refine ⟨?_, hf2, ?_⟩
  · intro r hr
    simp only [insertMember, List.mem_map] at hr
    obtain ⟨r0, hr0, rfl⟩ := hr
    by_cases h : r0.id = roomId
    · rw [if_pos h]
      exact hf1 r0 hr0
    · rw [if_neg h]
      exact hf1 r0 hr0
  · intro m hm
    simp only [insertMember, List.mem_append, List.mem_singleton] at hm
    rcases hm with hm | hm
    · exact hf3 m hm
    · rw [hm]
      exact hrid

theorem freshIds_deleteMember {db : DB} (roomId userId : Nat) (hf : freshIds db) :
    freshIds (deleteMember db roomId userId) := by
  obtain ⟨hf1, hf2, hf3⟩ := hf
  unfold deleteMember
  by_cases hany : db.members.any
      (fun m => decide (m.roomId = roomId ∧ m.userId = userId)) = true
  · rw [if_pos hany]
    refine ⟨?_, hf2, ?_⟩
    · intro r hr
      simp only [List.mem_map] at hr
      obtain ⟨r0, hr0, rfl⟩ := hr
      by_cases h : r0.id = roomId
      · rw [if_pos h]
        exact hf1 r0 hr0
      · rw [if_neg h]
        exact hf1 r0 hr0
    · intro m hm
      exact hf3 m (List.mem_of_mem_eraseP hm)
  · rw [if_neg hany]
    exact ⟨hf1, hf2, hf3⟩

theorem Inv_joinRoom {db : DB} {roomId : Nat} (userId : Nat)
    (hinv : Inv db) (hrid : roomId < db.nextId) :
    Inv (joinRoom db roomId userId) := by
  unfold joinRoom
  by_cases hany : db.members.any
      (fun m => decide (m.roomId = roomId ∧ m.userId = userId)) = true
  · rw [if_pos hany]
    exact hinv
  · rw [if_neg hany]
    exact ⟨memberCountInv_insertMember roomId userId hinv.1,
      freshIds_insertMember userId hinv.2 hrid⟩

theorem findOrCreateCourse_spec (db : DB) (k : RoomKey) (hinv : Inv db) :
    Inv (findOrCreateCourse db k).2 ∧
    (findOrCreateCourse db k).2.rooms = db.rooms ∧
    (findOrCreateCourse db k).2.members = db.members ∧
    (findOrCreateCourse db k).2.notifications = db.notifications ∧
    db.nextId ≤ (findOrCreateCourse db k).2.nextId := by
  obtain ⟨hm, hf1, hf2, hf3⟩ := hinv
  unfold findOrCreateCourse
  cases hfind : db.courses.find?
      (fun c => decide (c.name = k.courseName ∧ c.school = k.school)) with
  | some c => exact ⟨⟨hm, hf1, hf2, hf3⟩, rfl, rfl, rfl, Nat.le_refl _⟩
  | none =>
    refine ⟨⟨hm, ?_, ?_, ?_⟩, rfl, rfl, rfl, Nat.le_succ _⟩
    · intro r hr
      exact Nat.lt_succ_of_lt (hf1 r hr)
    · intro c hc
      simp only [List.mem_append, List.mem_singleton] at hc
      rcases hc with hc | hc
      · exact Nat.lt_succ_of_lt (hf2 c hc)
      · rw [hc]
        exact Nat.lt_succ_self _
    · intro m hm2
      exact Nat.lt_succ_of_lt (hf3 m hm2)

theorem findOrCreateRoom_spec (db : DB) (courseId : Nat) (k : RoomKey) (hinv : Inv db) :
    Inv (findOrCreateRoom db courseId k).2 ∧
    (findOrCreateRoom db courseId k).1 ∈ (findOrCreateRoom db courseId k).2.rooms ∧
    (findOrCreateRoom db courseId k).1.id < (findOrCreateRoom db courseId k).2.nextId ∧
    (findOrCreateRoom db courseId k).2.members = db.members ∧
    (findOrCreateRoom db courseId k).2.notifications = db.notifications := by
  obtain ⟨hm, hf1, hf2, hf3⟩ := hinv
  unfold findOrCreateRoom
  cases hfind : db.rooms.find? (roomMatches courseId k) with
  | some r =>
    have hr : r ∈ db.rooms := List.mem_of_find?_eq_some hfind
    exact ⟨⟨hm, hf1, hf2, hf3⟩, hr, hf1 r hr, rfl, rfl⟩
  | none =>
    refine ⟨⟨?_, ?_, ?_, ?_⟩, ?_, Nat.lt_succ_self _, rfl, rfl⟩
    · intro r hr
      simp only [List.mem_append, List.mem_singleton] at hr
      rcases hr with hr | hr
      · exact hm r hr
      · rw [hr]
        show (0 : Int) = _
        have hnil : db.members.filter (fun m => decide (m.roomId = db.nextId)) = [] := by
          rw [List.filter_eq_nil_iff]
          intro m hmem
          simp only [decide_eq_true_eq]
          exact Nat.ne_of_lt (hf3 m hmem)
        rw [hnil]
        rfl
    · intro r hr
      simp only [List.mem_append, List.mem_singleton] at hr
      rcases hr with hr | hr
      · exact Nat.lt_succ_of_lt (hf1 r hr)
      · rw [hr]
        exact Nat.lt_succ_self _
    · intro c hc
      exact Nat.lt_succ_of_lt (hf2 c hc)
    · intro m hm2
      exact Nat.lt_succ_of_lt (hf3 m hm2)
    · exact List.mem_append_right _ (List.mem_singleton_self _)

theorem resolveRoom_spec (db : DB) (k : RoomKey) (hinv : Inv db) :
    Inv (resolveRoom db k).2 ∧
    (resolveRoom db k).1 ∈ (resolveRoom db k).2.rooms ∧
    (resolveRoom db k).1.id < (resolveRoom db k).2.nextId ∧
    (resolveRoom db k).2.members = db.members ∧
    (resolveRoom db k).2.notifications = db.notifications := by
  simp only [resolveRoom]
  obtain ⟨hc1, _, hc3, hc4, _⟩ := findOrCreateCourse_spec db k hinv
  obtain ⟨hr1, hr2, hr3, hr4, hr5⟩ :=
    findOrCreateRoom_spec (findOrCreateCourse db k).2 (findOrCreateCourse db k).1 k hc1
  exact ⟨hr1, hr2, hr3, by rw [hr4, hc3], by rw [hr5, hc4]⟩

theorem Inv_applyOp (db : DB) (op : Op) (hinv : Inv db) : Inv (applyOp db op) := by
  cases op with
  | roomJoinOp u k =>
    obtain ⟨h1, h2, h3, h4, h5⟩ := resolveRoom_spec db k hinv
    exact Inv_joinRoom u h1 h3
  | confirmJoinOp u k =>
    obtain ⟨h1, h2, h3, h4, h5⟩ := resolveRoom_spec db k hinv
    show Inv (confirmJoinCourse db u k)
    unfold confirmJoinCourse
    by_cases hany : (resolveRoom db k).2.members.any
        (fun m => decide (m.roomId = (resolveRoom db k).1.id ∧ m.userId = u)) = true
    · rw [if_pos hany]
      exact h1
    · rw [if_neg hany]
      have hins : Inv (insertMember (resolveRoom db k).2 (resolveRoom db k).1.id u) :=
        ⟨memberCountInv_insertMember _ u h1.1, freshIds_insertMember u h1.2 h3⟩
      by_cases hpos : 0 < (resolveRoom db k).1.memberCount
      · rw [if_pos hpos]
        by_cases hemp : ((insertMember (resolveRoom db k).2 (resolveRoom db k).1.id
            u).members.filter (fun m => decide (m.roomId = (resolveRoom db k).1.id ∧
              ¬ m.userId = u))).map MemberRow.userId |>.isEmpty
        · rw [if_pos hemp]
          exact hins
        · rw [if_neg hemp]
          exact hins
      · rw [if_neg hpos]
        exact hins
  | leaveOp r u =>
    exact ⟨memberCountInv_deleteMember r u hinv.1, freshIds_deleteMember r u hinv.2⟩

theorem Inv_applyOps (db : DB) (ops : List Op) (hinv : Inv db) :
    Inv (applyOps db ops) := by
  induction ops generalizing db with
  | nil => exact hinv
  | cons op ops ih => exact ih (applyOp db op) (Inv_applyOp db op hinv)

/-- C3: starting from any store satisfying the derived-counter invariant
and id discipline, any sequence of join/leave operations preserves
`member_count = number of room_members rows` for every room; a
`room_members` insert bumps the target room's stored count by exactly 1
and a delete of an existing row lowers it by exactly 1 (the trigger is
the only writer besides room creation at 0). -/
theorem C3_member_count_invariant (db : DB) (ops : List Op) (roomId userId : Nat)
    (hinv : Inv db) :
    memberCountInv (applyOps db ops) ∧
    roomCount (insertMember db roomId userId) roomId =
      (roomCount db roomId).map (fun x => x + 1) ∧
    (db.members.any (fun m => decide (m.roomId = roomId ∧ m.userId = userId)) = true →
      roomCount (deleteMember db roomId userId) roomId =
        (roomCount db roomId).map (fun x => x - 1)) :=
  ⟨(Inv_applyOps db ops hinv).1, roomCount_insertMember db roomId userId,
    roomCount_deleteMember db roomId userId⟩

/-- Witness for C3 at a concrete store: one member row for room 5, empty
operation sequence, insert and delete of the pair (5, 1). -/
theorem C3_member_count_invariant_witness :
    memberCountInv (applyOps dbC1 []) ∧
    roomCount (insertMember dbC1 5 1) 5 = (roomCount dbC1 5).map (fun x => x + 1) ∧
    (dbC1.members.any (fun m => decide (m.roomId = 5 ∧ m.userId = 1)) = true →
      roomCount (deleteMember dbC1 5 1) 5 = (roomCount dbC1 5).map (fun x => x - 1)) := by
  have hinv : Inv dbC1 := by
    constructor
    · intro r hr
      simp [dbC1] at hr
    · refine ⟨?_, ?_, ?_⟩
      · intro r hr
        simp [dbC1] at hr
      · intro c hc
        simp [dbC1] at hc
      · intro m hm
        simp only [dbC1, List.mem_singleton] at hm
        subst hm
        decide
  exact C3_member_count_invariant dbC1 [] 5 1 hinv

/-! ## Idempotence of the room resolver and join (C4) -/

theorem findOrCreateCourse_second (db : DB) (k : RoomKey) (db2 : DB)
    (hcs : db2.courses = (findOrCreateCourse db k).2.courses) :
    findOrCreateCourse db2 k = ((findOrCreateCourse db k).1, db2) := by
  unfold findOrCreateCourse at hcs ⊢
  cases hfind : db.courses.find?
      (fun c => decide (c.name = k.courseName ∧ c.school = k.school)) with
  | some c =>
    rw [hfind] at hcs
    rw [hcs, hfind]
  | none =>
    rw [hfind] at hcs
    simp only at hcs
    rw [hcs, List.find?_append, hfind]
    have hnew : (List.find?
        (fun c => decide (c.name = k.courseName ∧ c.school = k.school))
        [({ id := db.nextId, name := k.courseName, school := k.school, code := k.code }
          : CourseRow)]) =
        some { id := db.nextId, name := k.courseName, school := k.school, code := k.code } := by
      simp [List.find?]
    rw [Option.none_or, hnew]

theorem findOrCreateRoom_courses (db : DB) (courseId : Nat) (k : RoomKey) :
    (findOrCreateRoom db courseId k).2.courses = db.courses := by
  unfold findOrCreateRoom
  cases hfind : db.rooms.find? (roomMatches courseId k) with
  | some r => rfl
  | none => rfl

theorem findOrCreateRoom_second (db : DB) (courseId : Nat) (k : RoomKey) (db2 : DB)
    (hrs : db2.rooms = (findOrCreateRoom db courseId k).2.rooms) :
    findOrCreateRoom db2 courseId k = ((findOrCreateRoom db courseId k).1, db2) := by
  unfold findOrCreateRoom at hrs ⊢
  cases hfind : db.rooms.find? (roomMatches courseId k) with
  | some r =>
    rw [hfind] at hrs
    rw [hrs, hfind]
  | none =>
    rw [hfind] at hrs
    simp only at hrs
    rw [hrs, List.find?_append, hfind]
    have hnew : (List.find? (roomMatches courseId k)
        [({ id := db.nextId, courseId := courseId, semesterId := k.semesterId
            dayOfWeek := k.dayOfWeek, startTime := k.startTime, endTime := k.endTime
            professor := k.professor, classroom := k.classroom, weeks := k.weeks
            memberCount := 0 } : RoomRow)]) =
        some { id := db.nextId, courseId := courseId, semesterId := k.semesterId
               dayOfWeek := k.dayOfWeek, startTime := k.startTime, endTime := k.endTime
               professor := k.professor, classroom := k.classroom, weeks := k.weeks
               memberCount := 0 } := by
      simp [List.find?, roomMatches]
    rw [Option.none_or, hnew]

theorem resolveRoom_idem (db : DB) (k : RoomKey) :
    resolveRoom (resolveRoom db k).2 k = resolveRoom db k := by
  unfold resolveRoom
  have hc : findOrCreateCourse
      (findOrCreateRoom (findOrCreateCourse db k).2 (findOrCreateCourse db k).1 k).2 k =
      ((findOrCreateCourse db k).1,
       (findOrCreateRoom (findOrCreateCourse db k).2 (findOrCreateCourse db k).1 k).2) := by
    apply findOrCreateCourse_second
    exact findOrCreateRoom_courses (findOrCreateCourse db k).2 (findOrCreateCourse db k).1 k
  rw [hc]
  exact findOrCreateRoom_second (findOrCreateCourse db k).2 (findOrCreateCourse db k).1 k _ rfl

theorem joinRoom_idem (db : DB) (roomId userId : Nat) :
    joinRoom (joinRoom db roomId userId) roomId userId = joinRoom db roomId userId := by
  unfold joinRoom
  by_cases hany : db.members.any
      (fun m => decide (m.roomId = roomId ∧ m.userId = userId)) = true
  · rw [if_pos hany, if_pos hany]
  · rw [if_neg hany]
    have hany2 : (insertMember db roomId userId).members.any
        (fun m => decide (m.roomId = roomId ∧ m.userId = userId)) = true := by
      simp only [insertMember, List.any_append]
      have h1 : ([(⟨roomId, userId⟩ : MemberRow)].any
          (fun m => decide (m.roomId = roomId ∧ m.userId = userId))) = true := by
        simp
      rw [h1, Bool.or_true]
    rw [if_pos hany2]

/-- C4: resolving the same natural-key tuple twice returns the same room
and leaves the store (in particular the `course_rooms` table) untouched
the second time, and joining the same `(room, user)` pair twice is a
no-op the second time, so every room's `member_count` is unchanged by
the second join. -/
theorem C4_resolve_join_idempotent (db : DB) (k : RoomKey) (roomId userId rid : Nat) :
    resolveRoom (resolveRoom db k).2 k = resolveRoom db k ∧
    (resolveRoom (resolveRoom db k).2 k).2.rooms = (resolveRoom db k).2.rooms ∧
    joinRoom (joinRoom db roomId userId) roomId userId = joinRoom db roomId userId ∧
    roomCount (joinRoom (joinRoom db roomId userId) roomId userId) rid =
      roomCount (joinRoom db roomId userId) rid := by
  refine ⟨resolveRoom_idem db k, ?_, joinRoom_idem db roomId userId, ?_⟩
  · rw [resolveRoom_idem db k]
  · rw [joinRoom_idem db roomId userId]

/-! ## Respond handler (C5) -/

theorem canonicalUid1_eq_min (a b : Nat) : canonicalUid1 a b = min a b := by
  unfold canonicalUid1
  by_cases h : a < b
  · rw [if_pos h]
    omega
  · rw [if_neg h]
    omega

theorem canonicalUid2_eq_max (a b : Nat) : canonicalUid2 a b = max a b := by
  unfold canonicalUid2
  by_cases h : a < b
  · rw [if_pos h]
    omega
  · rw [if_neg h]
    omega

theorem respond_none_eq {now : Int} {db : DB} {requestId userId : Nat} {accept : Bool}
    (hfind : db.requests.find? (respondMatch requestId userId) = none) :
    respond now db requestId userId accept = Except.error ApiError.notFound := by
  unfold respond
  rw [hfind]

theorem respond_reject_eq {now : Int} {db : DB} {requestId userId : Nat} {req : RequestRow}
    (hfind : db.requests.find? (respondMatch requestId userId) = some req) :
    respond now db requestId userId false = Except.ok
      { db with
        requests := db.requests.map (fun (r : RequestRow) =>
          if r.id = requestId then
            { r with status := RequestStatus.rejected, respondedAt := some now }
          else r)
        notifications := db.notifications ++
          [({ userId := req.requesterId, ntype := "contact_rejected", roomId := none
              requestId := some requestId } : NotificationRow)] } := by
  unfold respond
  rw [hfind]
  rfl

theorem respond_accept_dup_eq {now : Int} {db : DB} {requestId userId : Nat}
    {req : RequestRow}
    (hfind : db.requests.find? (respondMatch requestId userId) = some req)
    (hany : db.connections.any (fun c =>
      decide (c.userId1 = canonicalUid1 req.requesterId req.targetUserId ∧
        c.userId2 = canonicalUid2 req.requesterId req.targetUserId)) = true) :
    respond now db requestId userId true = Except.ok
      { db with
        requests := db.requests.map (fun (r : RequestRow) =>
          if r.id = requestId then
            { r with status := RequestStatus.accepted, respondedAt := some now }
          else r)
        notifications := db.notifications ++
          [({ userId := req.requesterId, ntype := "contact_accepted", roomId := none
              requestId := some requestId } : NotificationRow)] } := by
  unfold respond
  rw [hfind]
  dsimp only
  rw [if_pos hany]
  rfl

theorem respond_accept_new_eq {now : Int} {db : DB} {requestId userId : Nat}
    {req : RequestRow}
    (hfind : db.requests.find? (respondMatch requestId userId) = some req)
    (hany : db.connections.any (fun c =>
      decide (c.userId1 = canonicalUid1 req.requesterId req.targetUserId ∧
        c.userId2 = canonicalUid2 req.requesterId req.targetUserId)) = false) :
    respond now db requestId userId true = Except.ok
      { db with
        requests := db.requests.map (fun (r : RequestRow) =>
          if r.id = requestId then
            { r with status := RequestStatus.accepted, respondedAt := some now }
          else r)
        connections := db.connections ++
          [(⟨canonicalUid1 req.requesterId req.targetUserId,
             canonicalUid2 req.requesterId req.targetUserId, req.roomId⟩ : ConnectionRow)]
        notifications := db.notifications ++
          [({ userId := req.requesterId, ntype := "contact_accepted", roomId := none
              requestId := some requestId } : NotificationRow)] } := by
  unfold respond
  rw [hfind]
  dsimp only
  have hne : ¬ ((db.connections.any fun c =>
      decide (c.userId1 = canonicalUid1 req.requesterId req.targetUserId ∧
        c.userId2 = canonicalUid2 req.requesterId req.targetUserId)) = true) := by
    rw [hany]
    exact Bool.false_ne_true
  rw [if_neg hne]
  rfl

/-- C5: `respond` answers "not found" exactly when no request matches
the id, target user and pending status all at once; on a match it writes
the new status with `responded_at`, and an accept yields a connection
ordered `(min, max)`, with a pre-existing connection left untouched
rather than causing an error. -/
theorem C5_respond_spec (now : Int) (db : DB) (requestId userId : Nat) (accept : Bool) :
    (respond now db requestId userId accept = Except.error ApiError.notFound ↔
      ¬ ∃ r ∈ db.requests, r.id = requestId ∧ r.targetUserId = userId ∧
        r.status = RequestStatus.pending) ∧
    (∀ req, db.requests.find? (respondMatch requestId userId) = some req →
      ∃ db2, respond now db requestId userId accept = Except.ok db2 ∧
        (∀ r ∈ db.requests, r.id = requestId →
          ({ r with
             status := if accept then RequestStatus.accepted else RequestStatus.rejected
             respondedAt := some now } : RequestRow) ∈ db2.requests) ∧
        (accept = true →
          ∃ c ∈ db2.connections,
            c.userId1 = min req.requesterId req.targetUserId ∧
            c.userId2 = max req.requesterId req.targetUserId) ∧
        (accept = true →
          (∃ c ∈ db.connections,
            c.userId1 = min req.requesterId req.targetUserId ∧
            c.userId2 = max req.requesterId req.targetUserId) →
          db2.connections = db.connections)) := by
  constructor
  · cases hfind : db.requests.find? (respondMatch requestId userId) with
    | none =>
      have hnone := List.find?_eq_none.1 hfind
      constructor
      · intro _
        rintro ⟨r, hr, h1, h2, h3⟩
        exact (hnone r hr) (by simp [respondMatch, h1, h2, h3])
      · intro _
        exact respond_none_eq hfind
    | some req =>
      have hmem := List.mem_of_find?_eq_some hfind
      have hp := List.find?_some hfind
      simp only [respondMatch, decide_eq_true_eq] at hp
      constructor
      · intro herr
        exfalso
        cases haccept : accept with
        | false =>
          rw [haccept] at herr
          rw [respond_reject_eq hfind] at herr
          exact Except.noConfusion herr
        | true =>
          rw [haccept] at herr
          cases hany : db.connections.any (fun c =>
              decide (c.userId1 = canonicalUid1 req.requesterId req.targetUserId ∧
                c.userId2 = canonicalUid2 req.requesterId req.targetUserId)) with
          | true =>
            rw [respond_accept_dup_eq hfind hany] at herr
            exact Except.noConfusion herr
          | false =>
            rw [respond_accept_new_eq hfind hany] at herr
            exact Except.noConfusion herr
      · intro hex
        exact absurd ⟨req, hmem, hp.1, hp.2.1, hp.2.2⟩ hex
  · intro req hfind
    have hmin := canonicalUid1_eq_min req.requesterId req.targetUserId
    have hmax := canonicalUid2_eq_max req.requesterId req.targetUserId
    cases haccept : accept with
    | false =>
      refine ⟨_, respond_reject_eq hfind, ?_, ?_, ?_⟩
      · intro r hr hid
        have h2 := List.mem_map_of_mem (fun (r : RequestRow) =>
          if r.id = requestId then
            { r with status := RequestStatus.rejected, respondedAt := some now }
          else r) hr
        dsimp only at h2
        rw [if_pos hid] at h2
        exact h2
      · intro h
        exact absurd h (by simp)
      · intro h
        exact absurd h (by simp)
    | true =>
      cases hany : db.connections.any (fun c =>
          decide (c.userId1 = canonicalUid1 req.requesterId req.targetUserId ∧
            c.userId2 = canonicalUid2 req.requesterId req.targetUserId)) with
      | true =>
        refine ⟨_, respond_accept_dup_eq hfind hany, ?_, ?_, ?_⟩
        · intro r hr hid
          have h2 := List.mem_map_of_mem (fun (r : RequestRow) =>
            if r.id = requestId then
              { r with status := RequestStatus.accepted, respondedAt := some now }
            else r) hr
          dsimp only at h2
          rw [if_pos hid] at h2
          exact h2
        · intro _
          obtain ⟨c, hc, hcp⟩ := List.any_eq_true.1 hany
          simp only [decide_eq_true_eq] at hcp
          exact ⟨c, hc, by rw [hcp.1, hmin], by rw [hcp.2, hmax]⟩
        · intro _ _
          rfl
      | false =>
        refine ⟨_, respond_accept_new_eq hfind hany, ?_, ?_, ?_⟩
        · intro r hr hid
          have h2 := List.mem_map_of_mem (fun (r : RequestRow) =>
            if r.id = requestId then
              { r with status := RequestStatus.accepted, respondedAt := some now }
            else r) hr
          dsimp only at h2
          rw [if_pos hid] at h2
          exact h2
        · intro _
          refine ⟨⟨canonicalUid1 req.requesterId req.targetUserId,
            canonicalUid2 req.requesterId req.targetUserId, req.roomId⟩,
            List.mem_append_right _ (List.mem_singleton_self _), ?_, ?_⟩
          · rw [hmin]
          · rw [hmax]
        · rintro _ ⟨c, hc, h1, h2⟩
          exfalso
          have : db.connections.any (fun c =>
              decide (c.userId1 = canonicalUid1 req.requesterId req.targetUserId ∧
                c.userId2 = canonicalUid2 req.requesterId req.targetUserId)) = true := by
            refine List.any_eq_true.2 ⟨c, hc, ?_⟩
            simp only [decide_eq_true_eq]
            exact ⟨by rw [h1, hmin], by rw [h2, hmax]⟩
          rw [this] at hany
          exact Bool.noConfusion hany

/-- Witness for C5: accepting the concrete pending request `rC5`
(requester 2, target 1) marks it accepted and creates the connection
`(1, 2)`. -/
theorem C5_respond_spec_witness :
    ∃ db2, respond 100 dbC5 7 1 true = Except.ok db2 ∧
      ({ rC5 with status := RequestStatus.accepted, respondedAt := some 100 } : RequestRow)
        ∈ db2.requests ∧
      ∃ c ∈ db2.connections, c.userId1 = 1 ∧ c.userId2 = 2 := by
  have hfind : dbC5.requests.find? (respondMatch 7 1) = some rC5 := by decide
  obtain ⟨db2, hok, hupd, hconn, _⟩ := (C5_respond_spec 100 dbC5 7 1 true).2 rC5 hfind
  refine ⟨db2, hok, ?_, ?_⟩
  · exact hupd rC5 (by decide) rfl
  · obtain ⟨c, hc, h1, h2⟩ := hconn rfl
    refine ⟨c, hc, ?_, ?_⟩
    · rw [h1]
      decide
    · rw [h2]
      decide

/-! ## Request handler (C6) -/

/-- C6: `request` always fails on a self-request regardless of state;
for distinct users it succeeds exactly when `can_request_contact` holds;
and on success the stored requests are the old ones minus every row for
the exact ordered pair plus one fresh pending row. -/
theorem C6_request_spec (now : Int) (db : DB) (requesterId targetId : Nat)
    (roomId : Option Nat) (message : Option String) :
    (requesterId = targetId →
      request now db requesterId targetId roomId message =
        Except.error ApiError.selfRequest) ∧
    (requesterId ≠ targetId →
      ((∃ db2, request now db requesterId targetId roomId message = Except.ok db2) ↔
        can_request_contact now requesterId targetId db.connections db.requests = true)) ∧
    (∀ db2, request now db requesterId targetId roomId message = Except.ok db2 →
      db2.requests =
        (db.requests.filter (fun r =>
          ! decide (r.requesterId = requesterId ∧ r.targetUserId = targetId))) ++
        [{ id := db.nextId, requesterId := requesterId, targetUserId := targetId
           roomId := roomId, status := RequestStatus.pending, message := message
           createdAt := now, respondedAt := none }]) := by
  unfold request
  by_cases hself : requesterId = targetId
  · rw [if_pos hself]
    refine ⟨fun _ => rfl, fun hne => absurd hself hne, ?_⟩
    intro db2 h
    exact Except.noConfusion h
  · rw [if_neg hself]
    refine ⟨fun h => absurd h hself, ?_, ?_⟩
    · intro _
      cases hconn : are_connected requesterId targetId db.connections with
      | true =>
        rw [if_pos rfl]
        have hcan : can_request_contact now requesterId targetId db.connections
            db.requests = false := by
          unfold can_request_contact
          rw [if_pos hconn]
        constructor
        · rintro ⟨db2, h⟩
          exact Except.noConfusion h
        · intro h
          rw [h] at hcan
          exact Bool.noConfusion hcan
      | false =>
        rw [if_neg Bool.false_ne_true]
        cases hcan : can_request_contact now requesterId targetId db.connections
            db.requests with
        | true =>
          rw [if_pos rfl]
          exact ⟨fun _ => rfl, fun _ => ⟨_, rfl⟩⟩
        | false =>
          rw [if_neg Bool.false_ne_true]
          constructor
          · rintro ⟨db2, h⟩
            exact Except.noConfusion h
          · intro h
            exact absurd h Bool.false_ne_true
    · intro db2 h
      by_cases hconn : are_connected requesterId targetId db.connections = true
      · rw [if_pos hconn] at h
        exact Except.noConfusion h
      · rw [if_neg hconn] at h
        by_cases hcan : can_request_contact now requesterId targetId db.connections
            db.requests = true
        · rw [if_pos hcan] at h
          injection h with h
          rw [← h]
        · rw [if_neg hcan] at h
          exact Except.noConfusion h

/-- Witness for C6: in the empty store, user 1 may request user 2 and the
stored requests afterwards are exactly one fresh pending row, while a
self-request by user 1 fails. -/
theorem C6_request_spec_witness :
    (∃ db2, request 50 emptyDB 1 2 none none = Except.ok db2 ∧
      db2.requests = [{ id := 0, requesterId := 1, targetUserId := 2, roomId := none
                        status := RequestStatus.pending, message := none
                        createdAt := 50, respondedAt := none }]) ∧
    request 50 emptyDB 1 1 none none = Except.error ApiError.selfRequest := by
  constructor
  · have h := (C6_request_spec 50 emptyDB 1 2 none none).2.1 (by decide)
    obtain ⟨db2, hok⟩ := h.2 (by decide)
    have hreq := (C6_request_spec 50 emptyDB 1 2 none none).2.2 db2 hok
    refine ⟨db2, hok, ?_⟩
    rw [hreq]
    rfl
  · exact (C6_request_spec 50 emptyDB 1 1 none none).1 rfl

/-! ## New-member notification fan-out (C7) -/

/-- Amended C7: only the schedule-confirm join fans out notifications.
On a first join through `confirmJoinCourse`, exactly one `new_member`
notification is appended per current member of the room other than the
joining user (none when the room was empty), while the `/rooms/join`
flow (`roomJoin`) never inserts notifications. -/
theorem C7_new_member_fanout (db : DB) (userId : Nat) (k : RoomKey) (hinv : Inv db)
    (hnew : (resolveRoom db k).2.members.any (fun m =>
      decide (m.roomId = (resolveRoom db k).1.id ∧ m.userId = userId)) = false) :
    (confirmJoinCourse db userId k).notifications =
      db.notifications ++
        (((resolveRoom db k).2.members.filter (fun m =>
            decide (m.roomId = (resolveRoom db k).1.id ∧ ¬ m.userId = userId))).map
          (fun m => ({ userId := m.userId, ntype := "new_member"
                       roomId := some (resolveRoom db k).1.id, requestId := none }
            : NotificationRow))) ∧
    (roomJoin db userId k).2.notifications = db.notifications := by
  obtain ⟨h1, h2, h3, h4, h5⟩ := resolveRoom_spec db k hinv
  have hinm : (insertMember (resolveRoom db k).2 (resolveRoom db k).1.id
      userId).notifications = (resolveRoom db k).2.notifications := rfl
  have hinmm : (insertMember (resolveRoom db k).2 (resolveRoom db k).1.id
      userId).members = (resolveRoom db k).2.members ++
        [(⟨(resolveRoom db k).1.id, userId⟩ : MemberRow)] := rfl
  have hq : ((resolveRoom db k).2.members ++
      [(⟨(resolveRoom db k).1.id, userId⟩ : MemberRow)]).filter (fun m =>
        decide (m.roomId = (resolveRoom db k).1.id ∧ ¬ m.userId = userId)) =
      (resolveRoom db k).2.members.filter (fun m =>
        decide (m.roomId = (resolveRoom db k).1.id ∧ ¬ m.userId = userId)) := by
    rw [List.filter_append]
    have hsing : (List.filter (fun m =>
        decide (m.roomId = (resolveRoom db k).1.id ∧ ¬ m.userId = userId))
        [(⟨(resolveRoom db k).1.id, userId⟩ : MemberRow)]) = [] := by
      simp
    rw [hsing, List.append_nil]
  constructor
  · unfold confirmJoinCourse
    dsimp only
    rw [if_neg (by rw [hnew]; exact Bool.false_ne_true)]
    by_cases hpos : 0 < (resolveRoom db k).1.memberCount
    · rw [if_pos hpos]
      have hlen := h1.1 (resolveRoom db k).1 h2
      have hne : ¬ (((insertMember (resolveRoom db k).2 (resolveRoom db k).1.id
          userId).members.filter (fun m =>
            decide (m.roomId = (resolveRoom db k).1.id ∧ ¬ m.userId = userId))).map
          MemberRow.userId).isEmpty = true := by
        intro hempty
        rw [List.isEmpty_iff] at hempty
        have hmap := List.map_eq_nil_iff.1 hempty
        rw [hinmm, hq] at hmap
        have hlen0 : 0 < ((resolveRoom db k).2.members.filter (fun m =>
            decide (m.roomId = (resolveRoom db k).1.id))).length := by
          omega
        obtain ⟨m, hm⟩ := List.exists_mem_of_length_pos hlen0
        have hm2 := List.mem_filter.1 hm
        simp only [decide_eq_true_eq] at hm2
        have hnotu : ¬ m.userId = userId := by
          intro hu
          have hfalse := List.any_eq_false.1 hnew m hm2.1
          simp only [decide_eq_true_eq] at hfalse
          exact hfalse ⟨hm2.2, hu⟩
        have hmq : m ∈ (resolveRoom db k).2.members.filter (fun m =>
            decide (m.roomId = (resolveRoom db k).1.id ∧ ¬ m.userId = userId)) := by
          rw [List.mem_filter]
          exact ⟨hm2.1, by simp [hm2.2, hnotu]⟩
        rw [hmap] at hmq
        exact List.not_mem_nil m hmq
      rw [if_neg hne]
      dsimp only
      rw [hinm, hinmm, hq, h5, List.map_map]
      rfl
    · rw [if_neg hpos]
      rw [hinm, h5]
      have hlen := h1.1 (resolveRoom db k).1 h2
      have hfp : (resolveRoom db k).2.members.filter (fun m =>
          decide (m.roomId = (resolveRoom db k).1.id)) = [] := by
        rw [← List.length_eq_zero]
        omega
      have hfe : (resolveRoom db k).2.members.filter (fun m =>
          decide (m.roomId = (resolveRoom db k).1.id ∧ ¬ m.userId = userId)) = [] := by
        rw [List.filter_eq_nil_iff]
        intro m hm
        simp only [decide_eq_true_eq]
        rintro ⟨hr, _⟩
        have hmem : m ∈ (resolveRoom db k).2.members.filter (fun m =>
            decide (m.roomId = (resolveRoom db k).1.id)) :=
          List.mem_filter.2 ⟨hm, by simp [hr]⟩
        rw [hfp] at hmem
        exact List.not_mem_nil m hmem
      rw [hfe, List.map_nil, List.append_nil]
  · unfold roomJoin joinRoom
    dsimp only
    by_cases hany : (resolveRoom db k).2.members.any (fun m =>
        decide (m.roomId = (resolveRoom db k).1.id ∧ m.userId = userId)) = true
    · rw [if_pos hany]
      exact h5
    · rw [if_neg hany]
      rw [hinm]
      exact h5

/-- Counterexample refuting C7 as stated: in `dbC7` the room already has
one other member (user 10), user 20's first join through the
`/rooms/join` flow does insert a membership, yet zero `new_member`
notifications are produced — the claim demands exactly one, to user 10. -/
theorem C7_counterexample :
    (roomJoin dbC7 20 kC7).2.members.length = dbC7.members.length + 1 ∧
    (dbC7.members.filter (fun m => decide (m.roomId = 1 ∧ ¬ m.userId = 20))).length = 1 ∧
    ((roomJoin dbC7 20 kC7).2.notifications.filter
      (fun n => decide (n.ntype = "new_member"))).length = 0 := by
  decide

/-- Witness for the amended C7 at the concrete store `dbC7`: user 20's
first confirm-join into the room with member 10 fans out to exactly the
other members, and the `/rooms/join` flow leaves notifications alone. -/
theorem C7_new_member_fanout_witness :
    (confirmJoinCourse dbC7 20 kC7).notifications =
      dbC7.notifications ++
        (((resolveRoom dbC7 kC7).2.members.filter (fun m =>
            decide (m.roomId = (resolveRoom dbC7 kC7).1.id ∧ ¬ m.userId = 20))).map
          (fun m => ({ userId := m.userId, ntype := "new_member"
                       roomId := some (resolveRoom dbC7 kC7).1.id, requestId := none }
            : NotificationRow))) ∧
    (roomJoin dbC7 20 kC7).2.notifications = dbC7.notifications := by
  have hinv : Inv dbC7 := by
    constructor
    · intro r hr
      simp only [dbC7, List.mem_singleton] at hr
      subst hr
      decide
    · refine ⟨?_, ?_, ?_⟩
      · intro r hr
        simp only [dbC7, List.mem_singleton] at hr
        subst hr
        decide
      · intro c hc
        simp only [dbC7, List.mem_singleton] at hc
        subst hc
        decide
      · intro m hm
        simp only [dbC7, List.mem_singleton] at hm
        subst hm
        decide
  exact C7_new_member_fanout dbC7 20 kC7 hinv (by decide)

/-! ## Quota gate (C8) -/

/-- C8: with a positive configured allowance, `consumeQuota` throws
exactly when the caller is not privileged, the stored `reset_at` is in
the future, and the stored remainder is ≤ 0; a non-privileged caller
with `reset_at` not in the future succeeds with the allowance minus 1
and `reset_at` set to the next UTC midnight (the least multiple of
86400 s strictly after `now`); a privileged caller gets an early return
with no row write. -/
theorem C8_consumeQuota (dailyQuota now : Int) (user : QuotaRow) (isEdu : Bool)
    (hq : 0 < dailyQuota) :
    (consumeQuota dailyQuota now user isEdu = Except.error ApiError.quotaExceeded ↔
      (isEdu = false ∧
       (∃ resetAt, user.matchQuotaResetAt = some resetAt ∧ now < resetAt) ∧
       (∃ m, user.matchQuotaRemaining = some m ∧ m ≤ 0))) ∧
    (isEdu = false → ∀ resetAt, user.matchQuotaResetAt = some resetAt → resetAt ≤ now →
      consumeQuota dailyQuota now user isEdu = Except.ok (some
        { matchQuotaRemaining := some (dailyQuota - 1)
          matchQuotaResetAt := some (nextResetAt now) })) ∧
    (isEdu = true → consumeQuota dailyQuota now user isEdu = Except.ok none) ∧
    (now < nextResetAt now ∧ nextResetAt now % 86400 = 0 ∧
      nextResetAt now ≤ now + 86400) := by
  have hmid : now < nextResetAt now ∧ nextResetAt now % 86400 = 0 ∧
      nextResetAt now ≤ now + 86400 := by
    unfold nextResetAt
    omega
  obtain ⟨rem, reset⟩ := user
  cases isEdu with
  | true =>
    refine ⟨?_, ?_, fun _ => rfl, hmid⟩
    · constructor
      · intro h
        exact Except.noConfusion h
      · rintro ⟨h, _⟩
        exact Bool.noConfusion h
    · intro h
      exact Bool.noConfusion h
  | false =>
    rcases reset with _ | r
    · have hok : consumeQuota dailyQuota now ⟨rem, none⟩ false = Except.ok (some
          { matchQuotaRemaining := some (dailyQuota - 1)
            matchQuotaResetAt := some (nextResetAt now) }) := by
        unfold consumeQuota
        dsimp only
        rw [if_neg (by omega : ¬ dailyQuota ≤ 0)]
        rfl
      refine ⟨?_, ?_, ?_, hmid⟩
      · rw [hok]
        constructor
        · intro h
          exact Except.noConfusion h
        · rintro ⟨_, ⟨ra, hra, _⟩, _⟩
          exact Option.noConfusion hra
      · intro _ ra hra
        exact Option.noConfusion hra
      · intro h
        exact Bool.noConfusion h
    · by_cases hle : r ≤ now
      · have hok : consumeQuota dailyQuota now ⟨rem, some r⟩ false = Except.ok (some
            { matchQuotaRemaining := some (dailyQuota - 1)
              matchQuotaResetAt := some (nextResetAt now) }) := by
          unfold consumeQuota
          dsimp only
          rw [if_pos hle, if_neg (by omega : ¬ dailyQuota ≤ 0)]
          rfl
        refine ⟨?_, ?_, ?_, hmid⟩
        · rw [hok]
          constructor
          · intro h
            exact Except.noConfusion h
          · rintro ⟨_, ⟨ra, hra, hlt⟩, _⟩
            injection hra with hra
            subst hra
            omega
        · intro _ ra hra _
          injection hra with hra
        · intro h
          exact Bool.noConfusion h
      · rcases rem with _ | m
        · have hok : consumeQuota dailyQuota now ⟨none, some r⟩ false = Except.ok (some
              { matchQuotaRemaining := some (dailyQuota - 1)
                matchQuotaResetAt := some (nextResetAt now) }) := by
            unfold consumeQuota
            dsimp only
            rw [if_neg hle,
              if_neg (show ¬ Option.getD none dailyQuota ≤ 0 from
                fun h => (by omega : ¬ dailyQuota ≤ 0) h)]
            rfl
          refine ⟨?_, ?_, ?_, hmid⟩
          · rw [hok]
            constructor
            · intro h
              exact Except.noConfusion h
            · rintro ⟨_, _, ⟨m, hm, _⟩⟩
              exact Option.noConfusion hm
          · intro _ ra hra hle2
            injection hra with hra
          · intro h
            exact Bool.noConfusion h
        · by_cases hm : m ≤ 0
          · have herr : consumeQuota dailyQuota now ⟨some m, some r⟩ false =
                Except.error ApiError.quotaExceeded := by
              unfold consumeQuota
              dsimp only
              rw [if_neg hle, if_pos (show Option.getD (some m) dailyQuota ≤ 0 from hm)]
              rfl
            refine ⟨?_, ?_, ?_, hmid⟩
            · rw [herr]
              constructor
              · intro _
                exact ⟨rfl, ⟨r, rfl, by omega⟩, ⟨m, rfl, hm⟩⟩
              · intro _
                rfl
            · intro _ ra hra hle2
              injection hra with hra
              subst hra
              exact absurd hle2 hle
            · intro h
              exact Bool.noConfusion h
          · have hok : consumeQuota dailyQuota now ⟨some m, some r⟩ false = Except.ok (some
                { matchQuotaRemaining := some (m - 1)
                  matchQuotaResetAt := some (nextResetAt now) }) := by
              unfold consumeQuota
              dsimp only
              rw [if_neg hle, if_neg (show ¬ Option.getD (some m) dailyQuota ≤ 0 from hm)]
              rfl
            refine ⟨?_, ?_, ?_, hmid⟩
            · rw [hok]
              constructor
              · intro h
                exact Except.noConfusion h
              · rintro ⟨_, _, ⟨m2, hm2, hle0⟩⟩
                injection hm2 with hm2
                subst hm2
                exact absurd hle0 hm
            · intro _ ra hra hle2
              injection hra with hra
              subst hra
              exact absurd hle2 hle
            · intro h
              exact Bool.noConfusion h

/-- Witness for C8 with the default allowance 3: a non-privileged user
at zero remaining with `reset_at` in the future is rejected, and the
same user with `reset_at` in the past succeeds with remaining 2 and the
next UTC midnight; a privileged user passes untouched. -/
theorem C8_consumeQuota_witness :
    consumeQuota 3 1000 ⟨some 0, some 2000⟩ false = Except.error ApiError.quotaExceeded ∧
    consumeQuota 3 1000 ⟨some 0, some 500⟩ false =
      Except.ok (some { matchQuotaRemaining := some 2, matchQuotaResetAt := some 86400 }) ∧
    consumeQuota 3 1000 ⟨some 0, some 2000⟩ true = Except.ok none := by
  refine ⟨?_, ?_, ?_⟩
  · exact (C8_consumeQuota 3 1000 ⟨some 0, some 2000⟩ false (by omega)).1.2
      ⟨rfl, ⟨2000, rfl, by omega⟩, ⟨0, rfl, by omega⟩⟩
  · have h := (C8_consumeQuota 3 1000 ⟨some 0, some 500⟩ false (by omega)).2.1
      rfl 500 rfl (by omega)
    rw [h]
    rfl
  · exact (C8_consumeQuota 3 1000 ⟨some 0, some 2000⟩ true (by omega)).2.2.1 rfl

/-! ## Time formatting (C9) -/

/-- Counterexample refuting C9 as stated: `"0800"` and `"08:00"` are two
source encodings of the clock time 08:00, both accepted by the join flow
(`formatTime` returns non-null for both), yet they resolve to different
room-key strings — and the second result `"08::0"` is not an `HH:MM`
rendering at all.  Likewise the 12-hour rendering `"0130"` (1:30 PM) and
the military `"1330"` stay distinct.  No cross-format normalization
happens. -/
theorem C9_counterexample :
    (formatTime (some "0800")).isSome = true ∧
    (formatTime (some "08:00")).isSome = true ∧
    formatTime (some "0800") = some "08:00" ∧
    formatTime (some "08:00") = some "08::0" ∧
    formatTime (some "0800") ≠ formatTime (some "08:00") ∧
    formatTime (some "0130") ≠ formatTime (some "1330") ∧
    formatTime (some "800") = none := by
  refine ⟨rfl, rfl, rfl, rfl, by decide, by decide, rfl⟩

/-- Amended C9: `formatTime` performs no 12/24-hour or zero-padding
normalization.  It accepts a value exactly when it is at least 4
characters long, and then re-renders it by splicing a colon between the
first two and next two characters; only source values that already share
the identical military `HHMM` prefix agree on the stored key. -/
theorem C9_formatTime_slice (v : String) :
    formatTime none = none ∧
    ((formatTime (some v)).isSome ↔ 4 ≤ v.length) ∧
    (4 ≤ v.length →
      formatTime (some v) = some (v.take 2 ++ ":" ++ (v.drop 2).take 2)) := by
  refine ⟨rfl, ?_, ?_⟩
  · unfold formatTime
    dsimp only
    by_cases h : v.length < 4
    · rw [if_pos h]
      simp
      omega
    · rw [if_neg h]
      simp
      omega
  · intro h
    unfold formatTime
    dsimp only
    rw [if_neg (by omega)]

/-- Witness for the amended C9 at the military encoding `"0845"`. -/
theorem C9_formatTime_slice_witness :
    4 ≤ ("0845" : String).length ∧
    formatTime (some "0845") =
      some (("0845" : String).take 2 ++ ":" ++ (("0845" : String).drop 2).take 2) :=
  ⟨by decide, (C9_formatTime_slice "0845").2.2 (by decide)⟩

/-! ## Day-of-week mapping (C10) -/

theorem find?_cons_eval {α : Type} (p : α → Bool) (a : α) (l : List α) :
    List.find? p (a :: l) = if p a then some a else List.find? p l := by
  by_cases h : p a = true
  · rw [List.find?_cons_of_pos _ h, if_pos h]
  · rw [List.find?_cons_of_neg _ (by simpa using h), if_neg h]

/-- C10: `getDayOfWeek` always lands in `[1, 7]`; null and empty meeting
days map to 1 (Monday); the result agrees with the spec's fixed
first-match precedence M, T, W, H, F, S with fallback 7, so the
multi-day code `"TH"` resolves to 2 (Tuesday). -/
theorem C10_getDayOfWeek (d : Option String) :
    getDayOfWeek d = specGetDayOfWeek d ∧
    (1 ≤ getDayOfWeek d ∧ getDayOfWeek d ≤ 7) ∧
    getDayOfWeek none = 1 ∧
    getDayOfWeek (some "") = 1 ∧
    getDayOfWeek (some "TH") = 2 := by
  refine ⟨?_, ?_, rfl, by decide, by decide⟩
  · cases d with
    | none => rfl
    | some s =>
      unfold getDayOfWeek specGetDayOfWeek
      dsimp only
      by_cases he : s.data.isEmpty
      · rw [if_pos he, if_pos he]
      · rw [if_neg he, if_neg he]
        simp only [specDayPrecedence]
        by_cases hM : (s.data.map Char.toUpper).contains 'M' = true
        · rw [if_pos hM, find?_cons_eval]
          dsimp only
          rw [if_pos hM]
        · rw [if_neg hM, find?_cons_eval]
          dsimp only
          rw [if_neg hM]
          by_cases hT : (s.data.map Char.toUpper).contains 'T' = true
          · rw [if_pos hT, find?_cons_eval]
            dsimp only
            rw [if_pos hT]
          · rw [if_neg hT, find?_cons_eval]
            dsimp only
            rw [if_neg hT]
            by_cases hW : (s.data.map Char.toUpper).contains 'W' = true
            · rw [if_pos hW, find?_cons_eval]
              dsimp only
              rw [if_pos hW]
            · rw [if_neg hW, find?_cons_eval]
              dsimp only
              rw [if_neg hW]
              by_cases hH : (s.data.map Char.toUpper).contains 'H' = true
              · rw [if_pos hH, find?_cons_eval]
                dsimp only
                rw [if_pos hH]
              · rw [if_neg hH, find?_cons_eval]
                dsimp only
                rw [if_neg hH]
                by_cases hF : (s.data.map Char.toUpper).contains 'F' = true
                · rw [if_pos hF, find?_cons_eval]
                  dsimp only
                  rw [if_pos hF]
                · rw [if_neg hF, find?_cons_eval]
                  dsimp only
                  rw [if_neg hF]
                  by_cases hS : (s.data.map Char.toUpper).contains 'S' = true
                  · rw [if_pos hS, find?_cons_eval]
                    dsimp only
                    rw [if_pos hS]
                  · rw [if_neg hS, find?_cons_eval]
                    dsimp only
                    rw [if_neg hS, List.find?_nil]
  · cases d with
    | none => decide
    | some s =>
      unfold getDayOfWeek
      dsimp only
      split_ifs <;> omega

end ClassMate
